import Mathlib

/-!
Verification development for the wall-e-dora track-controller firmware
(`src/nodes/tracks/firmware/main.cpp`): a shallow embedding of the
command interpreter, differential-drive mixing, line assembler and
heartbeat watchdog, together with proofs of the specified properties.

Modelling conventions:
* C `float` values are modelled as rationals (`ℚ`); the C cast
  `(int)x` is modelled as truncation toward zero (`cTrunc`).
* `absolute_time_t` timestamps are microsecond counts modelled as `Int`;
  `absolute_time_diff_us(a, b)` is `b - a`.
* `printf` diagnostics, `gpio_put` direction writes and
  `pwm_set_chan_level` duty writes are recorded as an `Event` trace.
* `getchar_timeout_us(0)` returning `PICO_ERROR_TIMEOUT` is `none`,
  a received byte is `some ch`.
* The `sscanf(cmd + 5, "%f %f", ...)` call is modelled by `parseTwoFloats`,
  covering sign / integer part / fraction-part decimal forms (exponent,
  hexadecimal and inf/nan spellings of `%f` are not modelled; no claim
  depends on them).
-/

/-- PWM wrap value (`#define PWM_WRAP_VALUE 1000`) — max PWM duty cycle value. -/
def PWM_WRAP_VALUE : Int := 1000

/-- Heartbeat timeout (`#define HEARTBEAT_TIMEOUT_US 3000000`) — 3 seconds. -/
def HEARTBEAT_TIMEOUT_US : Int := 3000000

/-- Size of the command buffer: the firmware declares `char serial_cmd_buf[64]`. -/
def BUF_SIZE : Nat := 64

/-- Maximum number of data bytes a line can hold: `sizeof(serial_cmd_buf) - 1`. -/
def LINE_MAX : Nat := BUF_SIZE - 1

/-- Clamp speed to the allowed PWM range, 0 to PWM_WRAP_VALUE (`clamp_pwm_duty`). -/
def clamp_pwm_duty (duty : Int) : Int :=
  if duty < 0 then 0
  else if duty > PWM_WRAP_VALUE then PWM_WRAP_VALUE
  else duty

/-- C cast `(int)q`: truncation toward zero. -/
def cTrunc (q : ℚ) : Int :=
  if q < 0 then -⌊-q⌋ else ⌊q⌋

/-- The two tracks. -/
inductive Track where
  | left
  | right

/-- Observable output state of one track: the PWM duty level last written
to its slice/channel, the level last written to its direction pin
(`true` = GPIO high = FORWARD per the firmware comments), and the level of
its VCC enable pin. -/
structure TrackOut where
  duty : Int
  dir : Bool
  vcc : Bool

/-- The controller state touched by `process_command`: the heartbeat
timestamp and both tracks' outputs. -/
structure CtrlState where
  last_heartbeat : Int
  left : TrackOut
  right : TrackOut

/-- Trace events: `printf` diagnostics and actuator writes. -/
inductive Event where
  | cmdEcho (cmd : List Char)
  | parseError (cmd : List Char)
  | unknownCmd (cmd : List Char)
  | dirWrite (t : Track) (v : Bool)
  | pwmLog (t : Track) (v : Int)
  | dutyWrite (t : Track) (v : Int)
  | overflowWarn
  | watchdogWarn

/-- ASCII digit test, as used by `strtof` / `%f` scanning. -/
def isDigitCh (c : Char) : Bool :=
  '0' ≤ c && c ≤ '9'

/-- C `isspace` characters skipped by `%f`. -/
def isCSpace (c : Char) : Bool :=
  c = ' ' || c = '\t' || c = '\n' || c = '\x0b' || c = '\x0c' || c = '\r'

/-- Numeric value of a digit string. -/
def digitsVal (ds : List Char) : Nat :=
  ds.foldl (fun a c => 10 * a + (c.toNat - 48)) 0

/-- Scan an unsigned decimal float (`digits`, `digits.digits`, `.digits`,
`digits.`); fails when no digit is present. Returns the value and the
unconsumed rest. -/
def scanMag (cs : List Char) : Option (ℚ × List Char) :=
  let ip := cs.takeWhile isDigitCh
  let cs1 := cs.dropWhile isDigitCh
  match cs1 with
  | '.' :: r =>
    let fp := r.takeWhile isDigitCh
    let cs2 := r.dropWhile isDigitCh
    if ip.isEmpty && fp.isEmpty then none
    else some ((digitsVal ip : ℚ) + (digitsVal fp : ℚ) / (10 : ℚ) ^ fp.length, cs2)
  | _ =>
    if ip.isEmpty then none else some ((digitsVal ip : ℚ), cs1)

/-- One `%f` conversion: skip whitespace, optional sign, magnitude. -/
def scanFloat (cs : List Char) : Option (ℚ × List Char) :=
  match cs.dropWhile isCSpace with
  | '-' :: r => (scanMag r).map (fun p => (-p.1, p.2))
  | '+' :: r => scanMag r
  | r => scanMag r

/-- Model of `sscanf(payload, "%f %f", &linear, &angular) == 2`: both
conversions must succeed. -/
def parseTwoFloats (cs : List Char) : Option (ℚ × ℚ) :=
  match scanFloat cs with
  | none => none
  | some (a, rest) =>
    match scanFloat rest with
    | none => none
    | some (b, _) => some (a, b)

/-- The literal command `"heartbeat"`. -/
def heartbeatCmd : List Char :=
  ['h', 'e', 'a', 'r', 't', 'b', 'e', 'a', 't']

/-- Does the line start with the 5-byte `"move "` marker
(`strncmp(cmd, "move ", 5) == 0`)? -/
def isMoveCmd (cmd : List Char) : Bool :=
  match cmd with
  | 'm' :: 'o' :: 'v' :: 'e' :: ' ' :: _ => true
  | _ => false

/-- The accepted-move branch of `process_command` (firmware lines 62–99):
differential mixing, direction resolution, scaling by 10, truncation and
clamping, then the direction writes, PWM logs and duty writes. -/
def applyMove (linear angular : ℚ) (st : CtrlState) : CtrlState × List Event :=
  let left_mix := linear - angular
  let right_mix := linear + angular
  let ldir : Bool := decide (left_mix < 0)
  let left_pwm_duty : Int :=
    if left_mix < 0 then clamp_pwm_duty (cTrunc (-left_mix * 10))
    else clamp_pwm_duty (cTrunc (left_mix * 10))
  let rdir : Bool := decide (right_mix < 0)
  let right_pwm_duty : Int :=
    if right_mix < 0 then clamp_pwm_duty (cTrunc (-right_mix * 10))
    else clamp_pwm_duty (cTrunc (right_mix * 10))
  ({ st with
      left := { st.left with duty := left_pwm_duty, dir := ldir },
      right := { st.right with duty := right_pwm_duty, dir := rdir } },
   [Event.dirWrite Track.left ldir, Event.dirWrite Track.right rdir,
    Event.pwmLog Track.left left_pwm_duty, Event.pwmLog Track.right right_pwm_duty,
    Event.dutyWrite Track.left left_pwm_duty, Event.dutyWrite Track.right right_pwm_duty])

/-- Model of `process_command`: echo the line, then dispatch on `"heartbeat"`
(exact match), the `"move "` marker (heartbeat refresh happens before
the payload parse), or fall through to the unknown-command diagnostic. -/
def process_command (cmd : List Char) (now : Int) (st : CtrlState) :
    CtrlState × List Event :=
  let echo := [Event.cmdEcho cmd]
  if cmd = heartbeatCmd then
    ({ st with last_heartbeat := now }, echo)
  else
    match cmd with
    | 'm' :: 'o' :: 'v' :: 'e' :: ' ' :: payload =>
      let st1 := { st with last_heartbeat := now }
      match parseTwoFloats payload with
      | some (linear, angular) =>
        let r := applyMove linear angular st1
        (r.1, echo ++ r.2)
      | none => (st1, echo ++ [Event.parseError cmd])
    | _ => (st, echo ++ [Event.unknownCmd cmd])

/-- Result of feeding one byte to the line assembler. -/
inductive FeedOut where
  | quiet
  | emit (line : List Char)
  | overflow

/-- The line assembler (firmware lines 124–145): a terminator emits the
buffer when non-empty; a data byte is appended while fewer than
`LINE_MAX` bytes are stored; otherwise the byte and buffer are discarded
with an overflow warning. -/
def feed (buf : List Char) (ch : Char) : List Char × FeedOut :=
  if ch = '\n' ∨ ch = '\r' then
    if buf.isEmpty then (buf, FeedOut.quiet) else ([], FeedOut.emit buf)
  else if buf.length < LINE_MAX then
    (buf ++ [ch], FeedOut.quiet)
  else
    ([], FeedOut.overflow)

/-- Run the assembler over a byte list; returns the final buffer, the
emitted lines in order, and the number of overflow events. -/
def runFeed (buf : List Char) : List Char → List Char × List (List Char) × Nat
  | [] => (buf, [], 0)
  | c :: cs =>
    match feed buf c with
    | (buf1, FeedOut.quiet) => runFeed buf1 cs
    | (buf1, FeedOut.emit l) =>
      let r := runFeed buf1 cs
      (r.1, l :: r.2.1, r.2.2)
    | (buf1, FeedOut.overflow) =>
      let r := runFeed buf1 cs
      (r.1, r.2.1, r.2.2 + 1)

/-- Full state owned by the `main` control loop. -/
structure LoopState where
  ctrl : CtrlState
  warned : Bool
  buf : List Char

/-- The byte-handling half of one loop iteration: feed the byte (when one
arrived) to the assembler; a completed line goes to `process_command` and
clears `heartbeat_warned`; an overflow logs the warning. -/
def loopInput (now : Int) (inp : Option Char) (s : LoopState) :
    LoopState × List Event :=
  match inp with
  | none => (s, [])
  | some ch =>
    match feed s.buf ch with
    | (buf1, FeedOut.quiet) => ({ s with buf := buf1 }, [])
    | (buf1, FeedOut.emit line) =>
      let r := process_command line now s.ctrl
      ({ ctrl := r.1, warned := false, buf := buf1 }, r.2)
    | (buf1, FeedOut.overflow) =>
      ({ s with buf := buf1 }, [Event.overflowWarn])

/-- The heartbeat check of one loop iteration (firmware lines 149–157):
on the first iteration past the timeout it logs once, zeroes both PWM
levels and latches `heartbeat_warned`. -/
def watchdogCheck (now : Int) (s : LoopState) : LoopState × List Event :=
  if now - s.ctrl.last_heartbeat > HEARTBEAT_TIMEOUT_US then
    if s.warned then (s, [])
    else
      ({ s with
          ctrl := { s.ctrl with
            left := { s.ctrl.left with duty := 0 },
            right := { s.ctrl.right with duty := 0 } },
          warned := true },
       [Event.watchdogWarn, Event.dutyWrite Track.left 0, Event.dutyWrite Track.right 0])
  else (s, [])

/-- One full iteration of the `while (true)` loop: byte handling, then the
heartbeat check, which runs every iteration. -/
def loopStep (now : Int) (inp : Option Char) (s : LoopState) :
    LoopState × List Event :=
  let r1 := loopInput now inp s
  let r2 := watchdogCheck now r1.1
  (r2.1, r1.2 ++ r2.2)

/-- Run the loop over a list of (iteration time, polled byte) pairs. -/
def runLoop (s : LoopState) : List (Int × Option Char) → LoopState × List Event
  | [] => (s, [])
  | (t, i) :: rest =>
    let r1 := loopStep t i s
    let r := runLoop r1.1 rest
    (r.1, r1.2 ++ r.2)

/-- Effect of `init_track(..., 0)`: VCC enabled, initial duty 0, direction pin at
its reset level (low). -/
def init_track : TrackOut :=
  { duty := 0, dir := false, vcc := true }

/-- State after `main`'s initialization, booted at time `t0`
(`last_heartbeat = get_absolute_time()`, `heartbeat_warned = false`,
empty command buffer). -/
def initState (t0 : Int) : LoopState :=
  { ctrl := { last_heartbeat := t0, left := init_track, right := init_track },
    warned := false,
    buf := [] }

/-- Does this iteration's input complete a command line? -/
def completesLine (s : LoopState) (inp : Option Char) : Bool :=
  match inp with
  | none => false
  | some ch => (ch = '\n' || ch = '\r') && !s.buf.isEmpty

/-- No iteration of the run hands a completed line to the interpreter. -/
def noLineRun (s : LoopState) : List (Int × Option Char) → Bool
  | [] => true
  | (t, i) :: rest => !completesLine s i && noLineRun (loopStep t i s).1 rest

/-- Would the watchdog fire right now in state `s`? -/
def tripsNow (now : Int) (s : LoopState) : Bool :=
  decide (now - s.ctrl.last_heartbeat > HEARTBEAT_TIMEOUT_US) && !s.warned

/-- The watchdog never fires during the run (each iteration's check is
taken after its byte handling, as in the loop body). -/
def noTripRun (s : LoopState) : List (Int × Option Char) → Bool
  | [] => true
  | (t, i) :: rest =>
    !tripsNow t (loopInput t i s).1 && noTripRun (loopStep t i s).1 rest

/-- The line completed by this iteration's input, if any. -/
def completedLine (s : LoopState) (inp : Option Char) : Option (List Char) :=
  match inp with
  | none => none
  | some ch =>
    if (ch = '\n' || ch = '\r') && !s.buf.isEmpty then some s.buf else none

/-- Is the line a `"move "` command whose payload parses (an accepted
move command)? -/
def acceptedMoveLine (line : List Char) : Bool :=
  match line with
  | 'm' :: 'o' :: 'v' :: 'e' :: ' ' :: payload => (parseTwoFloats payload).isSome
  | _ => false

/-- No iteration of the run processes an accepted move command. -/
def noAcceptedMoveRun (s : LoopState) : List (Int × Option Char) → Bool
  | [] => true
  | (t, i) :: rest =>
    (match completedLine s i with
     | some l => !acceptedMoveLine l
     | none => true) && noAcceptedMoveRun (loopStep t i s).1 rest

/-- The bytes that feed one command line: its characters then `'\n'`. -/
def lineBytes (line : List Char) : List (Option Char) :=
  line.map some ++ [some '\n']

/-- The byte stream of `n` consecutive `"heartbeat"` lines. -/
def hbStream (n : Nat) : List (Option Char) :=
  (List.replicate n (lineBytes heartbeatCmd)).flatten

/-- Events that touch the motors or announce the watchdog: duty writes,
direction writes and the watchdog diagnostic. -/
def isMotorEvent : Event → Bool
  | Event.dutyWrite _ _ => true
  | Event.dirWrite _ _ => true
  | Event.watchdogWarn => true
  | _ => false

/-- Both duty levels lie in the PWM range. -/
def dutyInv (s : LoopState) : Prop :=
  0 ≤ s.ctrl.left.duty ∧ s.ctrl.left.duty ≤ PWM_WRAP_VALUE ∧
  0 ≤ s.ctrl.right.duty ∧ s.ctrl.right.duty ≤ PWM_WRAP_VALUE

/-- Concrete state for exercising the watchdog-fire case: timed out,
not yet warned, both tracks driving FORWARD at nonzero duty. -/
def c7TestState : LoopState :=
  { ctrl := { last_heartbeat := 0,
              left := { duty := 700, dir := true, vcc := true },
              right := { duty := 300, dir := true, vcc := true } },
    warned := false,
    buf := [] }

/-- A concrete no-move run from boot: an unknown one-byte line `"h"`,
then an idle iteration past the watchdog deadline. -/
def c10TestSteps : List (Int × Option Char) :=
  [(1, some 'h'), (2, some '\n'), (3500000, none)]

/-- Concrete pre-trip state: both tracks running, heartbeat last seen at
time 0, not yet warned, empty command buffer. -/
def c1TestState : LoopState :=
  { ctrl := { last_heartbeat := 0,
              left := { duty := 500, dir := true, vcc := true },
              right := { duty := 400, dir := false, vcc := true } },
    warned := false,
    buf := [] }

/-- Three loop iterations past the 3 s deadline; the middle one receives a
stray data byte but no line is completed. -/
def c1TestSteps : List (Int × Option Char) :=
  [(3000001, none), (3000002, some 'x'), (3000003, none)]

/-- A loop state in the middle of a timed-out outage (`warned = true`)
with the unknown line `"foo"` sitting completed in the buffer. -/
def c4TestState : LoopState :=
  { ctrl := (initState 0).ctrl, warned := true, buf := ['f', 'o', 'o'] }

theorem clamp_bounds (v : Int) :
    0 ≤ clamp_pwm_duty v ∧ clamp_pwm_duty v ≤ PWM_WRAP_VALUE := by
  unfold clamp_pwm_duty PWM_WRAP_VALUE
  split <;> [omega; skip]
  split <;> omega

theorem feed_term_empty {buf : List Char} {ch : Char}
    (hterm : ch = '\n' ∨ ch = '\r') (h : buf = []) :
    feed buf ch = (buf, FeedOut.quiet) := by
  simp [feed, hterm, h]

theorem feed_term_emit {buf : List Char} {ch : Char}
    (hterm : ch = '\n' ∨ ch = '\r') (h : buf ≠ []) :
    feed buf ch = ([], FeedOut.emit buf) := by
  simp [feed, hterm, h]

theorem feed_data {buf : List Char} {ch : Char}
    (hterm : ¬(ch = '\n' ∨ ch = '\r')) (h : buf.length < LINE_MAX) :
    feed buf ch = (buf ++ [ch], FeedOut.quiet) := by
  simp [feed, hterm, h]

theorem feed_full {buf : List Char} {ch : Char}
    (hterm : ¬(ch = '\n' ∨ ch = '\r')) (h : ¬ buf.length < LINE_MAX) :
    feed buf ch = ([], FeedOut.overflow) := by
  simp [feed, hterm, h]

theorem loopInput_none (now : Int) (s : LoopState) :
    loopInput now none s = (s, []) := rfl

theorem loopInput_quiet {s : LoopState} {ch : Char} {b1 : List Char} (now : Int)
    (h : feed s.buf ch = (b1, FeedOut.quiet)) :
    loopInput now (some ch) s = ({ s with buf := b1 }, []) := by
  simp [loopInput, h]

theorem loopInput_emit {s : LoopState} {ch : Char} {b1 l : List Char} (now : Int)
    (h : feed s.buf ch = (b1, FeedOut.emit l)) :
    loopInput now (some ch) s =
      ({ ctrl := (process_command l now s.ctrl).1, warned := false, buf := b1 },
       (process_command l now s.ctrl).2) := by
  simp [loopInput, h]

theorem loopInput_ovf {s : LoopState} {ch : Char} {b1 : List Char} (now : Int)
    (h : feed s.buf ch = (b1, FeedOut.overflow)) :
    loopInput now (some ch) s = ({ s with buf := b1 }, [Event.overflowWarn]) := by
  simp [loopInput, h]

theorem wd_noFire {now : Int} {s : LoopState} (h : tripsNow now s = false) :
    watchdogCheck now s = (s, []) := by
  unfold tripsNow at h
  unfold watchdogCheck
  split
  · split
    · rfl
    · rename_i hgt hw
      rw [Bool.and_eq_false_iff] at h
      rcases h with h | h
      · simp [hgt] at h
      · simp [Bool.not_eq_true'] at h
        exact absurd h hw
  · rfl

theorem wd_fire {now : Int} {s : LoopState}
    (h1 : now - s.ctrl.last_heartbeat > HEARTBEAT_TIMEOUT_US) (h2 : s.warned = false) :
    watchdogCheck now s =
      ({ s with
          ctrl := { s.ctrl with
            left := { s.ctrl.left with duty := 0 },
            right := { s.ctrl.right with duty := 0 } },
          warned := true },
       [Event.watchdogWarn, Event.dutyWrite Track.left 0, Event.dutyWrite Track.right 0]) := by
  simp [watchdogCheck, h1, h2]

theorem pc_heartbeat (now : Int) (st : CtrlState) :
    process_command heartbeatCmd now st =
      ({ st with last_heartbeat := now }, [Event.cmdEcho heartbeatCmd]) := by
  simp [process_command]

theorem move_ne_heartbeat (payload : List Char) :
    ('m' :: 'o' :: 'v' :: 'e' :: ' ' :: payload) ≠ heartbeatCmd := by
  simp [heartbeatCmd]

theorem pc_parse_fail {payload : List Char} (now : Int) (st : CtrlState)
    (h : parseTwoFloats payload = none) :
    process_command ('m' :: 'o' :: 'v' :: 'e' :: ' ' :: payload) now st =
      ({ st with last_heartbeat := now },
       [Event.cmdEcho ('m' :: 'o' :: 'v' :: 'e' :: ' ' :: payload),
        Event.parseError ('m' :: 'o' :: 'v' :: 'e' :: ' ' :: payload)]) := by
  simp [process_command, move_ne_heartbeat, h]

theorem pc_move_ok {payload : List Char} {linear angular : ℚ} (now : Int) (st : CtrlState)
    (h : parseTwoFloats payload = some (linear, angular)) :
    process_command ('m' :: 'o' :: 'v' :: 'e' :: ' ' :: payload) now st =
      ((applyMove linear angular { st with last_heartbeat := now }).1,
       Event.cmdEcho ('m' :: 'o' :: 'v' :: 'e' :: ' ' :: payload) ::
         (applyMove linear angular { st with last_heartbeat := now }).2) := by
  simp [process_command, move_ne_heartbeat, h]

theorem pc_unknown {cmd : List Char} (now : Int) (st : CtrlState)
    (h1 : cmd ≠ heartbeatCmd) (h2 : isMoveCmd cmd = false) :
    process_command cmd now st = (st, [Event.cmdEcho cmd, Event.unknownCmd cmd]) := by
  unfold process_command
  rw [if_neg h1]
  split
  · simp [isMoveCmd] at h2
  · rfl

theorem wd_warned {now : Int} {s : LoopState} (h : s.warned = true) :
    watchdogCheck now s = (s, []) := by
  unfold watchdogCheck
  split <;> simp [h]

theorem applyMove_shape (l a : ℚ) (st : CtrlState) :
    ∃ dl dr : Int,
      applyMove l a st =
        ({ st with
            left := { st.left with duty := dl, dir := decide (l - a < 0) },
            right := { st.right with duty := dr, dir := decide (l + a < 0) } },
         [Event.dirWrite Track.left (decide (l - a < 0)),
          Event.dirWrite Track.right (decide (l + a < 0)),
          Event.pwmLog Track.left dl, Event.pwmLog Track.right dr,
          Event.dutyWrite Track.left dl, Event.dutyWrite Track.right dr]) ∧
      (0 ≤ dl ∧ dl ≤ PWM_WRAP_VALUE) ∧ (0 ≤ dr ∧ dr ≤ PWM_WRAP_VALUE) := by
  refine ⟨if l - a < 0 then clamp_pwm_duty (cTrunc (-(l - a) * 10))
            else clamp_pwm_duty (cTrunc ((l - a) * 10)),
          if l + a < 0 then clamp_pwm_duty (cTrunc (-(l + a) * 10))
            else clamp_pwm_duty (cTrunc ((l + a) * 10)),
          rfl, ?_, ?_⟩ <;> (split <;> exact clamp_bounds _)

theorem pc_targets (cmd : List Char) (now : Int) (st : CtrlState)
    (h : acceptedMoveLine cmd = false) :
    (process_command cmd now st).1.left = st.left ∧
    (process_command cmd now st).1.right = st.right := by
  by_cases hhb : cmd = heartbeatCmd
  · subst hhb
    rw [pc_heartbeat]
    exact ⟨rfl, rfl⟩
  · cases hm : isMoveCmd cmd with
    | false =>
      rw [pc_unknown now st hhb hm]
      exact ⟨rfl, rfl⟩
    | true =>
      obtain ⟨payload, rfl⟩ : ∃ p, cmd = 'm' :: 'o' :: 'v' :: 'e' :: ' ' :: p := by
        unfold isMoveCmd at hm
        split at hm
        · exact ⟨_, rfl⟩
        · exact absurd hm (by simp)
      have hp : parseTwoFloats payload = none := by
        cases hq : parseTwoFloats payload with
        | none => rfl
        | some v =>
          rw [acceptedMoveLine, hq] at h
          simp at h
      rw [pc_parse_fail now st hp]
      exact ⟨rfl, rfl⟩

theorem loopInput_noLine {s : LoopState} {inp : Option Char} (now : Int)
    (h : completesLine s inp = false) :
    (loopInput now inp s).1.ctrl = s.ctrl ∧ (loopInput now inp s).1.warned = s.warned ∧
    ((loopInput now inp s).2 = [] ∨ (loopInput now inp s).2 = [Event.overflowWarn]) := by
  cases inp with
  | none => exact ⟨rfl, rfl, Or.inl rfl⟩
  | some ch =>
    by_cases hterm : ch = '\n' ∨ ch = '\r'
    · have hbuf : s.buf = [] := by
        rw [completesLine] at h
        simp [hterm] at h
        exact h
      rw [loopInput_quiet now (feed_term_empty hterm hbuf)]
      exact ⟨rfl, rfl, Or.inl rfl⟩
    · by_cases hlen : s.buf.length < LINE_MAX
      · rw [loopInput_quiet now (feed_data hterm hlen)]
        exact ⟨rfl, rfl, Or.inl rfl⟩
      · rw [loopInput_ovf now (feed_full hterm hlen)]
        exact ⟨rfl, rfl, Or.inr rfl⟩

theorem runLoop_append (s : LoopState) (xs ys : List (Int × Option Char)) :
    runLoop s (xs ++ ys) =
      ((runLoop (runLoop s xs).1 ys).1,
       (runLoop s xs).2 ++ (runLoop (runLoop s xs).1 ys).2) := by
  induction xs generalizing s with
  | nil => simp [runLoop]
  | cons p xs ih =>
    obtain ⟨t, i⟩ := p
    simp [runLoop, ih]

theorem run_warned_inactive {s : LoopState} {steps : List (Int × Option Char)}
    (hw : s.warned = true) (hnl : noLineRun s steps = true) :
    (runLoop s steps).1.ctrl = s.ctrl ∧ (runLoop s steps).1.warned = true ∧
    (runLoop s steps).2.filter isMotorEvent = [] := by
  induction steps generalizing s with
  | nil => exact ⟨rfl, hw, rfl⟩
  | cons p steps ih =>
    obtain ⟨t, i⟩ := p
    rw [noLineRun, Bool.and_eq_true, Bool.not_eq_true'] at hnl
    obtain ⟨hcl, hnl⟩ := hnl
    obtain ⟨hctrl, hwp, hevs⟩ := loopInput_noLine t hcl
    have hw1 : (loopInput t i s).1.warned = true := by rw [hwp, hw]
    have hstep : loopStep t i s = ((loopInput t i s).1, (loopInput t i s).2) := by
      rw [loopStep, wd_warned hw1]
      simp
    rw [hstep] at hnl
    obtain ⟨ih1, ih2, ih3⟩ := ih hw1 hnl
    refine ⟨?_, ?_, ?_⟩
    · rw [runLoop, hstep]
      simpa [hctrl] using ih1
    · rw [runLoop, hstep]
      simpa using ih2
    · rw [runLoop, hstep]
      simp only [List.filter_append, ih3, List.append_nil]
      rcases hevs with hevs | hevs <;> rw [hevs] <;> rfl

/-- C1: if the last accepted command was at time `T0` (so
`last_heartbeat = T0` and `heartbeat_warned` is clear) and no further
command line is completed during the run, then as soon as an iteration
runs at a time strictly after `T0 + HEARTBEAT_TIMEOUT_US` the watchdog
zeroes both tracks' duty and emits its diagnostic, and over the whole
outage this happens exactly once: the filtered trace holds exactly one
`watchdogWarn` and one zero duty write per track, and no further loop
iteration zeroes or logs again. -/
theorem watchdog_trips_exactly_once
    (s : LoopState) (T0 : Int) (steps : List (Int × Option Char))
    (hlh : s.ctrl.last_heartbeat = T0) (hw : s.warned = false)
    (hnl : noLineRun s steps = true)
    (hex : ∃ p ∈ steps, T0 + HEARTBEAT_TIMEOUT_US < p.1) :
    (runLoop s steps).1.ctrl.left.duty = 0 ∧
    (runLoop s steps).1.ctrl.right.duty = 0 ∧
    (runLoop s steps).1.warned = true ∧
    (runLoop s steps).2.filter isMotorEvent =
      [Event.watchdogWarn, Event.dutyWrite Track.left 0, Event.dutyWrite Track.right 0] := by
  induction steps generalizing s with
  | nil => simp at hex
  | cons p steps ih =>
    obtain ⟨t, i⟩ := p
    rw [noLineRun, Bool.and_eq_true, Bool.not_eq_true'] at hnl
    obtain ⟨hcl, hnl⟩ := hnl
    obtain ⟨hctrl, hwp, hevs⟩ := loopInput_noLine t hcl
    have hw1 : (loopInput t i s).1.warned = false := by rw [hwp, hw]
    by_cases htr : T0 + HEARTBEAT_TIMEOUT_US < t
    · have hfire : t - (loopInput t i s).1.ctrl.last_heartbeat > HEARTBEAT_TIMEOUT_US := by
        rw [hctrl, hlh]
        omega
      have hstep : loopStep t i s =
          ({ (loopInput t i s).1 with
              ctrl := { (loopInput t i s).1.ctrl with
                left := { (loopInput t i s).1.ctrl.left with duty := 0 },
                right := { (loopInput t i s).1.ctrl.right with duty := 0 } },
              warned := true },
           (loopInput t i s).2 ++
             [Event.watchdogWarn, Event.dutyWrite Track.left 0,
              Event.dutyWrite Track.right 0]) := by
        rw [loopStep, wd_fire hfire hw1]
      rw [hstep] at hnl
      obtain ⟨htl1, htl2, htl3⟩ := run_warned_inactive rfl hnl
      refine ⟨?_, ?_, ?_, ?_⟩
      · rw [runLoop, hstep]
        simp only at htl1 ⊢
        rw [htl1]
      · rw [runLoop, hstep]
        simp only at htl1 ⊢
        rw [htl1]
      · rw [runLoop, hstep]
        simpa using htl2
      · rw [runLoop, hstep]
        simp only [List.filter_append, htl3, List.append_nil]
        rcases hevs with hevs | hevs <;> rw [hevs] <;> rfl
    · have hnofire : tripsNow t (loopInput t i s).1 = false := by
        unfold tripsNow
        rw [hctrl, hlh]
        have : ¬ t - T0 > HEARTBEAT_TIMEOUT_US := by omega
        simp [this]
      have hstep : loopStep t i s = ((loopInput t i s).1, (loopInput t i s).2) := by
        rw [loopStep, wd_noFire hnofire]
        simp
      have hex' : ∃ p ∈ steps, T0 + HEARTBEAT_TIMEOUT_US < p.1 := by
        rcases hex with ⟨q, hq, hqt⟩
        rcases List.mem_cons.mp hq with rfl | hq'
        · exact absurd hqt htr
        · exact ⟨q, hq', hqt⟩
      rw [hstep] at hnl
      obtain ⟨ih1, ih2, ih3, ih4⟩ :=
        ih (loopInput t i s).1 (by rw [hctrl, hlh]) hw1 hnl hex'
      refine ⟨?_, ?_, ?_, ?_⟩
      · rw [runLoop, hstep]
        simpa using ih1
      · rw [runLoop, hstep]
        simpa using ih2
      · rw [runLoop, hstep]
        simpa using ih3
      · rw [runLoop, hstep]
        simp only [List.filter_append, ih4]
        rcases hevs with hevs | hevs <;> rw [hevs] <;> rfl

/-- C7: the watchdog check never touches a direction pin: whatever it
does, both direction outputs are exactly as last commanded and its event
trace holds no direction write; and when it does fire (timeout elapsed,
not yet warned) it zeroes both duty magnitudes. -/
theorem watchdog_preserves_direction (now : Int) (s : LoopState) :
    (watchdogCheck now s).1.ctrl.left.dir = s.ctrl.left.dir ∧
    (watchdogCheck now s).1.ctrl.right.dir = s.ctrl.right.dir ∧
    (∀ e ∈ (watchdogCheck now s).2, ∀ tr v, e ≠ Event.dirWrite tr v) ∧
    (now - s.ctrl.last_heartbeat > HEARTBEAT_TIMEOUT_US → s.warned = false →
      (watchdogCheck now s).1.ctrl.left.duty = 0 ∧
      (watchdogCheck now s).1.ctrl.right.duty = 0) := by
  by_cases hgt : now - s.ctrl.last_heartbeat > HEARTBEAT_TIMEOUT_US
  · cases hw : s.warned with
    | true =>
      rw [wd_warned hw]
      exact ⟨rfl, rfl, by simp, fun _ hw0 => Bool.noConfusion hw0⟩
    | false =>
      rw [wd_fire hgt hw]
      refine ⟨rfl, rfl, ?_, fun _ _ => ⟨rfl, rfl⟩⟩
      intro e he tr v
      simp only [List.mem_cons, List.not_mem_nil, or_false] at he
      rcases he with rfl | rfl | rfl <;> simp
  · have htn : tripsNow now s = false := by
      unfold tripsNow
      simp [hgt]
    rw [wd_noFire htn]
    exact ⟨rfl, rfl, by simp, fun h _ => absurd h hgt⟩


/-- Witness for `watchdog_preserves_direction`: at time 4000000 the trip
fires, zeroes the duties and leaves both direction pins high. -/
theorem watchdog_preserves_direction_applied :
    (watchdogCheck 4000000 c7TestState).1.ctrl.left.dir = c7TestState.ctrl.left.dir ∧
    (watchdogCheck 4000000 c7TestState).1.ctrl.right.dir = c7TestState.ctrl.right.dir ∧
    (watchdogCheck 4000000 c7TestState).1.ctrl.left.duty = 0 ∧
    (watchdogCheck 4000000 c7TestState).1.ctrl.right.duty = 0 := by
  obtain ⟨h1, h2, _, h4⟩ := watchdog_preserves_direction 4000000 c7TestState
  obtain ⟨h5, h6⟩ := h4 (by decide) rfl
  exact ⟨h1, h2, h5, h6⟩

theorem pc_duty (cmd : List Char) (now : Int) (st : CtrlState)
    (h1 : 0 ≤ st.left.duty) (h2 : st.left.duty ≤ PWM_WRAP_VALUE)
    (h3 : 0 ≤ st.right.duty) (h4 : st.right.duty ≤ PWM_WRAP_VALUE) :
    (0 ≤ (process_command cmd now st).1.left.duty ∧
     (process_command cmd now st).1.left.duty ≤ PWM_WRAP_VALUE ∧
     0 ≤ (process_command cmd now st).1.right.duty ∧
     (process_command cmd now st).1.right.duty ≤ PWM_WRAP_VALUE) ∧
    (∀ tr v, Event.dutyWrite tr v ∈ (process_command cmd now st).2 →
      0 ≤ v ∧ v ≤ PWM_WRAP_VALUE) := by
  by_cases hhb : cmd = heartbeatCmd
  · subst hhb
    rw [pc_heartbeat]
    refine ⟨⟨h1, h2, h3, h4⟩, fun tr v hv => ?_⟩
    simp at hv
  · cases hm : isMoveCmd cmd with
    | false =>
      rw [pc_unknown now st hhb hm]
      refine ⟨⟨h1, h2, h3, h4⟩, fun tr v hv => ?_⟩
      simp at hv
    | true =>
      obtain ⟨payload, rfl⟩ : ∃ p, cmd = 'm' :: 'o' :: 'v' :: 'e' :: ' ' :: p := by
        unfold isMoveCmd at hm
        split at hm
        · exact ⟨_, rfl⟩
        · exact absurd hm (by simp)
      cases hq : parseTwoFloats payload with
      | none =>
        rw [pc_parse_fail now st hq]
        refine ⟨⟨h1, h2, h3, h4⟩, fun tr v hv => ?_⟩
        simp at hv
      | some la =>
        obtain ⟨l, a⟩ := la
        rw [pc_move_ok now st hq]
        obtain ⟨dl, dr, heq, hdl, hdr⟩ :=
          applyMove_shape l a { st with last_heartbeat := now }
        rw [heq]
        refine ⟨⟨hdl.1, hdl.2, hdr.1, hdr.2⟩, fun tr v hv => ?_⟩
        simp only [List.mem_cons, List.not_mem_nil, or_false] at hv
        rcases hv with hv | hv | hv | hv | hv | hv | hv <;>
          (try cases hv) <;> first | exact hdl | exact hdr

theorem input_duty_bound (now : Int) (inp : Option Char) (s : LoopState)
    (h : dutyInv s) :
    dutyInv (loopInput now inp s).1 ∧
    ∀ tr v, Event.dutyWrite tr v ∈ (loopInput now inp s).2 →
      0 ≤ v ∧ v ≤ PWM_WRAP_VALUE := by
  obtain ⟨h1, h2, h3, h4⟩ := h
  cases inp with
  | none =>
    rw [loopInput_none]
    exact ⟨⟨h1, h2, h3, h4⟩, fun tr v hv => by simp at hv⟩
  | some ch =>
    rcases hf : feed s.buf ch with ⟨b1, fo⟩
    cases fo with
    | quiet =>
      rw [loopInput_quiet now hf]
      exact ⟨⟨h1, h2, h3, h4⟩, fun tr v hv => by simp at hv⟩
    | emit l =>
      rw [loopInput_emit now hf]
      obtain ⟨hb, he⟩ := pc_duty l now s.ctrl h1 h2 h3 h4
      exact ⟨hb, he⟩
    | overflow =>
      rw [loopInput_ovf now hf]
      exact ⟨⟨h1, h2, h3, h4⟩, fun tr v hv => by simp at hv⟩

theorem step_duty_bound (now : Int) (inp : Option Char) (s : LoopState)
    (h : dutyInv s) :
    dutyInv (loopStep now inp s).1 ∧
    ∀ tr v, Event.dutyWrite tr v ∈ (loopStep now inp s).2 →
      0 ≤ v ∧ v ≤ PWM_WRAP_VALUE := by
  obtain ⟨hin, hine⟩ := input_duty_bound now inp s h
  rw [loopStep]
  by_cases hgt : now - (loopInput now inp s).1.ctrl.last_heartbeat > HEARTBEAT_TIMEOUT_US
  · cases hw : (loopInput now inp s).1.warned with
    | true =>
      rw [wd_warned hw]
      refine ⟨hin, fun tr v hv => ?_⟩
      rw [List.append_nil] at hv
      exact hine tr v hv
    | false =>
      rw [wd_fire hgt hw]
      refine ⟨⟨le_refl 0, (show (0 : Int) ≤ PWM_WRAP_VALUE by decide),
               le_refl 0, (show (0 : Int) ≤ PWM_WRAP_VALUE by decide)⟩,
              fun tr v hv => ?_⟩
      rw [List.mem_append] at hv
      rcases hv with hv | hv
      · exact hine tr v hv
      · simp only [List.mem_cons, List.not_mem_nil, or_false] at hv
        rcases hv with hv | hv | hv <;> (try cases hv) <;>
          exact ⟨le_refl 0, (show (0 : Int) ≤ PWM_WRAP_VALUE by decide)⟩
  · have htn : tripsNow now (loopInput now inp s).1 = false := by
      unfold tripsNow
      simp [hgt]
    rw [wd_noFire htn]
    refine ⟨hin, fun tr v hv => ?_⟩
    rw [List.append_nil] at hv
    exact hine tr v hv

/-- C9: `clamp_pwm_duty` saturates — its result always lies in
`[0, PWM_WRAP_VALUE]`, negative inputs map to 0 and inputs above the
ceiling map to the ceiling, never wrapping; consequently both tracks
start inside the PWM range, every loop iteration keeps them there, and
every duty value ever written by an iteration lies in the range. -/
theorem clamp_saturation_and_duty_bounds :
    (∀ v : Int, 0 ≤ clamp_pwm_duty v ∧ clamp_pwm_duty v ≤ PWM_WRAP_VALUE ∧
       (v < 0 → clamp_pwm_duty v = 0) ∧
       (PWM_WRAP_VALUE < v → clamp_pwm_duty v = PWM_WRAP_VALUE)) ∧
    (∀ t0 : Int, dutyInv (initState t0)) ∧
    (∀ (now : Int) (inp : Option Char) (s : LoopState), dutyInv s →
       dutyInv (loopStep now inp s).1 ∧
       ∀ tr v, Event.dutyWrite tr v ∈ (loopStep now inp s).2 →
         0 ≤ v ∧ v ≤ PWM_WRAP_VALUE) := by
  refine ⟨fun v => ?_, fun t0 => ?_, fun now inp s h => step_duty_bound now inp s h⟩
  · obtain ⟨hb1, hb2⟩ := clamp_bounds v
    refine ⟨hb1, hb2, fun hv => ?_, fun hv => ?_⟩
    · unfold clamp_pwm_duty
      rw [if_pos hv]
    · unfold clamp_pwm_duty
      rw [if_neg (by omega), if_pos hv]
  · exact ⟨le_refl 0, (show (0 : Int) ≤ PWM_WRAP_VALUE by decide),
           le_refl 0, (show (0 : Int) ≤ PWM_WRAP_VALUE by decide)⟩

/-- Witness for `clamp_saturation_and_duty_bounds`: one concrete loop
iteration from the boot state keeps the duty invariant. -/
theorem clamp_saturation_and_duty_bounds_applied :
    dutyInv (loopStep 10 (some 'z') (initState 0)).1 :=
  (clamp_saturation_and_duty_bounds.2.2 10 (some 'z') (initState 0)
    ⟨le_refl 0, by decide, le_refl 0, by decide⟩).1

theorem feed_emit_inv {buf b1 l : List Char} {ch : Char}
    (h : feed buf ch = (b1, FeedOut.emit l)) :
    (ch = '\n' ∨ ch = '\r') ∧ buf ≠ [] ∧ l = buf ∧ b1 = [] := by
  unfold feed at h
  split at h
  case isTrue hterm =>
    split at h
    case isTrue hemp => exact absurd h (by simp)
    case isFalse hemp =>
      rw [Prod.mk.injEq] at h
      obtain ⟨hb, he⟩ := h
      rw [FeedOut.emit.injEq] at he
      subst he
      subst hb
      refine ⟨hterm, ?_, rfl, rfl⟩
      simpa using hemp
  case isFalse hterm =>
    split at h <;> exact absurd h (by simp)

theorem wd_duty0 {now : Int} {s : LoopState}
    (hl : s.ctrl.left.duty = 0) (hr : s.ctrl.right.duty = 0) :
    (watchdogCheck now s).1.ctrl.left.duty = 0 ∧
    (watchdogCheck now s).1.ctrl.right.duty = 0 := by
  unfold watchdogCheck
  split
  · split
    · exact ⟨hl, hr⟩
    · exact ⟨rfl, rfl⟩
  · exact ⟨hl, hr⟩

theorem run_no_move_keeps_zero {steps : List (Int × Option Char)} {s : LoopState}
    (hl : s.ctrl.left.duty = 0) (hr : s.ctrl.right.duty = 0)
    (h : noAcceptedMoveRun s steps = true) :
    (runLoop s steps).1.ctrl.left.duty = 0 ∧
    (runLoop s steps).1.ctrl.right.duty = 0 := by
  induction steps generalizing s with
  | nil => exact ⟨hl, hr⟩
  | cons p steps ih =>
    obtain ⟨t, i⟩ := p
    rw [noAcceptedMoveRun, Bool.and_eq_true] at h
    obtain ⟨h0, h⟩ := h
    have hstep : (loopStep t i s).1.ctrl.left.duty = 0 ∧
        (loopStep t i s).1.ctrl.right.duty = 0 := by
      have hin : (loopInput t i s).1.ctrl.left.duty = 0 ∧
          (loopInput t i s).1.ctrl.right.duty = 0 := by
        cases i with
        | none =>
          rw [loopInput_none]
          exact ⟨hl, hr⟩
        | some ch =>
          rcases hf : feed s.buf ch with ⟨b1, fo⟩
          cases fo with
          | quiet =>
            rw [loopInput_quiet t hf]
            exact ⟨hl, hr⟩
          | emit line =>
            rw [loopInput_emit t hf]
            obtain ⟨hterm, hne, rfl, rfl⟩ := feed_emit_inv hf
            have hcl : completedLine s (some ch) = some s.buf := by
              unfold completedLine
              simp [hterm, hne]
            rw [hcl] at h0
            simp only [Bool.not_eq_true'] at h0
            obtain ⟨hpl, hpr⟩ := pc_targets s.buf t s.ctrl h0
            rw [hpl, hpr]
            exact ⟨hl, hr⟩
          | overflow =>
            rw [loopInput_ovf t hf]
            exact ⟨hl, hr⟩
      rw [loopStep]
      exact wd_duty0 hin.1 hin.2
    obtain ⟨ihl, ihr⟩ := ih hstep.1 hstep.2 h
    rw [runLoop]
    exact ⟨ihl, ihr⟩

/-- C10: after `main`'s initialization both tracks have duty 0 and both
motor drivers' VCC enable pins are high, and as long as no accepted move
command is processed — any mixture of idle polls, stray bytes, heartbeat
lines, malformed or unknown lines, overflows and watchdog trips — both
duty magnitudes remain 0: the robot cannot move before the first
accepted move command. -/
theorem boot_state_stopped_until_move (t0 : Int) :
    (initState t0).ctrl.left.duty = 0 ∧ (initState t0).ctrl.right.duty = 0 ∧
    (initState t0).ctrl.left.vcc = true ∧ (initState t0).ctrl.right.vcc = true ∧
    ∀ steps, noAcceptedMoveRun (initState t0) steps = true →
      (runLoop (initState t0) steps).1.ctrl.left.duty = 0 ∧
      (runLoop (initState t0) steps).1.ctrl.right.duty = 0 :=
  ⟨rfl, rfl, rfl, rfl, fun _ h => run_no_move_keeps_zero rfl rfl h⟩


/-- Witness for `boot_state_stopped_until_move` on a concrete run. -/
theorem boot_state_stopped_until_move_applied :
    (runLoop (initState 0) c10TestSteps).1.ctrl.left.duty = 0 ∧
    (runLoop (initState 0) c10TestSteps).1.ctrl.right.duty = 0 :=
  (boot_state_stopped_until_move 0).2.2.2.2 c10TestSteps (by decide)



/-- Witness for `watchdog_trips_exactly_once` at a concrete state and run. -/
theorem watchdog_trips_exactly_once_applied :
    (runLoop c1TestState c1TestSteps).1.ctrl.left.duty = 0 ∧
    (runLoop c1TestState c1TestSteps).1.ctrl.right.duty = 0 ∧
    (runLoop c1TestState c1TestSteps).1.warned = true ∧
    (runLoop c1TestState c1TestSteps).2.filter isMotorEvent =
      [Event.watchdogWarn, Event.dutyWrite Track.left 0, Event.dutyWrite Track.right 0] :=
  watchdog_trips_exactly_once c1TestState 0 c1TestSteps rfl rfl (by decide) (by decide)

theorem mixDuty_abs (m : ℚ) :
    (if m < 0 then clamp_pwm_duty (cTrunc (-m * 10))
     else clamp_pwm_duty (cTrunc (m * 10)))
      = clamp_pwm_duty (cTrunc (|m| * 10)) := by
  by_cases hm : m < 0
  · rw [if_pos hm, abs_of_neg hm]
  · rw [if_neg hm, abs_of_nonneg (not_lt.mp hm)]

theorem applyMove_fields (l a : ℚ) (st : CtrlState) :
    (applyMove l a st).1.left.duty =
      (if l - a < 0 then clamp_pwm_duty (cTrunc (-(l - a) * 10))
       else clamp_pwm_duty (cTrunc ((l - a) * 10))) ∧
    (applyMove l a st).1.left.dir = decide (l - a < 0) ∧
    (applyMove l a st).1.right.duty =
      (if l + a < 0 then clamp_pwm_duty (cTrunc (-(l + a) * 10))
       else clamp_pwm_duty (cTrunc ((l + a) * 10))) ∧
    (applyMove l a st).1.right.dir = decide (l + a < 0) ∧
    (applyMove l a st).1.last_heartbeat = st.last_heartbeat :=
  ⟨rfl, rfl, rfl, rfl, rfl⟩

/-- C2 counterexample: the payload `"0.0625 0"` parses to
`(1/16, 0)`; the firmware truncates `|1/16 - 0| * 10 = 5/8` toward zero
and writes left duty 0, while the claim's formula
`clamp(round(|linear-angular|*SCALE), 0, DUTY_MAX)` yields 1 — so the
claimed equation is false at this input. -/
theorem move_round_claim_refuted :
    parseTwoFloats ['0', '.', '0', '6', '2', '5', ' ', '0'] = some (1/16, 0) ∧
    (process_command ('m' :: 'o' :: 'v' :: 'e' :: ' ' ::
        ['0', '.', '0', '6', '2', '5', ' ', '0']) 0 (initState 0).ctrl).1.left.duty = 0 ∧
    clamp_pwm_duty (round (|(1/16 : ℚ) - 0| * 10)) = 1 ∧
    (0 : Int) ≠ 1 := by
  have hparse : parseTwoFloats ['0', '.', '0', '6', '2', '5', ' ', '0'] = some (1/16, 0) := by
    have h1 : parseTwoFloats ['0', '.', '0', '6', '2', '5', ' ', '0'] =
        some ((digitsVal ['0'] : ℚ) + (digitsVal ['0', '6', '2', '5'] : ℚ) / (10 : ℚ) ^ 4,
              (digitsVal ['0'] : ℚ)) := rfl
    have h2 : digitsVal ['0'] = 0 := rfl
    have h3 : digitsVal ['0', '6', '2', '5'] = 625 := rfl
    rw [h1, h2, h3]
    norm_num [Option.some.injEq, Prod.mk.injEq]
  refine ⟨hparse, ?_, ?_, by decide⟩
  · rw [pc_move_ok 0 (initState 0).ctrl hparse]
    obtain ⟨f1, _, _, _, _⟩ := applyMove_fields (1/16) 0
      { (initState 0).ctrl with last_heartbeat := 0 }
    rw [f1, if_neg (by norm_num)]
    have hf : cTrunc (((1 : ℚ)/16 - 0) * 10) = 0 := by
      unfold cTrunc
      rw [if_neg (by norm_num)]
      norm_num
    rw [hf]
    decide
  · have ha : |(1/16 : ℚ) - 0| = 1/16 := by
      rw [sub_zero, abs_of_nonneg (by norm_num : (0 : ℚ) ≤ 1/16)]
    rw [ha, round_eq]
    have hf : ⌊(1/16 : ℚ) * 10 + 1/2⌋ = 1 := by norm_num
    rw [hf]
    decide

/-- C2 as amended: for every accepted move command with parsed payload
`(linear, angular)`, the left duty equals
`clamp(trunc(|linear-angular| * 10), 0, 1000)` with C truncation toward
zero (not round-to-nearest), the left direction pin is high (FORWARD)
iff `linear - angular < 0`, symmetrically the right side uses
`linear + angular`, and the command refreshes `last_heartbeat`. -/
theorem move_mixing_truncates (payload : List Char) (linear angular : ℚ)
    (st : CtrlState) (now : Int)
    (h : parseTwoFloats payload = some (linear, angular)) :
    (process_command ('m' :: 'o' :: 'v' :: 'e' :: ' ' :: payload) now st).1.left.duty
        = clamp_pwm_duty (cTrunc (|linear - angular| * 10)) ∧
    (process_command ('m' :: 'o' :: 'v' :: 'e' :: ' ' :: payload) now st).1.left.dir
        = decide (linear - angular < 0) ∧
    (process_command ('m' :: 'o' :: 'v' :: 'e' :: ' ' :: payload) now st).1.right.duty
        = clamp_pwm_duty (cTrunc (|linear + angular| * 10)) ∧
    (process_command ('m' :: 'o' :: 'v' :: 'e' :: ' ' :: payload) now st).1.right.dir
        = decide (linear + angular < 0) ∧
    (process_command ('m' :: 'o' :: 'v' :: 'e' :: ' ' :: payload) now st).1.last_heartbeat
        = now := by
  rw [pc_move_ok now st h]
  obtain ⟨f1, f2, f3, f4, f5⟩ :=
    applyMove_fields linear angular { st with last_heartbeat := now }
  exact ⟨by rw [f1, mixDuty_abs], f2, by rw [f3, mixDuty_abs], f4, f5⟩

theorem parse_fifty_zero : parseTwoFloats ['5', '0', ' ', '0'] = some (50, 0) := by
  have h1 : parseTwoFloats ['5', '0', ' ', '0'] =
      some ((digitsVal ['5', '0'] : ℚ), (digitsVal ['0'] : ℚ)) := rfl
  have h2 : digitsVal ['5', '0'] = 50 := rfl
  have h3 : digitsVal ['0'] = 0 := rfl
  rw [h1, h2, h3]
  norm_num [Option.some.injEq, Prod.mk.injEq]

/-- Witness for `move_mixing_truncates` on the spec scenario
`"move 50 0"`. -/
theorem move_mixing_truncates_applied :
    (process_command ('m' :: 'o' :: 'v' :: 'e' :: ' ' :: ['5', '0', ' ', '0']) 7
        (initState 0).ctrl).1.left.duty
      = clamp_pwm_duty (cTrunc (|(50 : ℚ) - 0| * 10)) ∧
    (process_command ('m' :: 'o' :: 'v' :: 'e' :: ' ' :: ['5', '0', ' ', '0']) 7
        (initState 0).ctrl).1.left.dir = decide ((50 : ℚ) - 0 < 0) ∧
    (process_command ('m' :: 'o' :: 'v' :: 'e' :: ' ' :: ['5', '0', ' ', '0']) 7
        (initState 0).ctrl).1.right.duty
      = clamp_pwm_duty (cTrunc (|(50 : ℚ) + 0| * 10)) ∧
    (process_command ('m' :: 'o' :: 'v' :: 'e' :: ' ' :: ['5', '0', ' ', '0']) 7
        (initState 0).ctrl).1.right.dir = decide ((50 : ℚ) + 0 < 0) ∧
    (process_command ('m' :: 'o' :: 'v' :: 'e' :: ' ' :: ['5', '0', ' ', '0']) 7
        (initState 0).ctrl).1.last_heartbeat = 7 :=
  move_mixing_truncates ['5', '0', ' ', '0'] 50 0 (initState 0).ctrl 7 parse_fifty_zero

/-- C3 counterexample: the line `"move abc 1"` has the `"move "` marker
but its payload fails to parse, yet processing it *does* refresh
`last_heartbeat` (0 → 42), contradicting the claim's "does not refresh
last_seen". -/
theorem malformed_move_refreshes_heartbeat :
    parseTwoFloats ['a', 'b', 'c', ' ', '1'] = none ∧
    (initState 0).ctrl.last_heartbeat = 0 ∧
    (process_command ('m' :: 'o' :: 'v' :: 'e' :: ' ' :: ['a', 'b', 'c', ' ', '1']) 42
        (initState 0).ctrl).1.last_heartbeat = 42 ∧
    (42 : Int) ≠ 0 := by decide

/-- C3 as amended: a `"move "` line whose payload parses to fewer than 2
numeric tokens changes no actuator output (both track records are kept),
emits only diagnostics — but it *does* refresh `last_heartbeat`, because
the firmware treats the `"move "` marker itself as proof of liveness
before parsing the payload. -/
theorem malformed_move_effects (payload : List Char) (now : Int) (st : CtrlState)
    (h : parseTwoFloats payload = none) :
    process_command ('m' :: 'o' :: 'v' :: 'e' :: ' ' :: payload) now st =
      ({ st with last_heartbeat := now },
       [Event.cmdEcho ('m' :: 'o' :: 'v' :: 'e' :: ' ' :: payload),
        Event.parseError ('m' :: 'o' :: 'v' :: 'e' :: ' ' :: payload)]) :=
  pc_parse_fail now st h

/-- Witness for `malformed_move_effects` on the spec scenario
`"move abc 1"`. -/
theorem malformed_move_effects_applied :
    process_command ('m' :: 'o' :: 'v' :: 'e' :: ' ' :: ['a', 'b', 'c', ' ', '1']) 42
        (initState 0).ctrl =
      ({ (initState 0).ctrl with last_heartbeat := 42 },
       [Event.cmdEcho ('m' :: 'o' :: 'v' :: 'e' :: ' ' :: ['a', 'b', 'c', ' ', '1']),
        Event.parseError ('m' :: 'o' :: 'v' :: 'e' :: ' ' :: ['a', 'b', 'c', ' ', '1'])]) :=
  malformed_move_effects ['a', 'b', 'c', ' ', '1'] 42 (initState 0).ctrl (by decide)


/-- C4 counterexample: completing the unknown line `"foo"` while
`heartbeat_warned` is latched clears the warned flag (true → false),
contradicting the claim that the warned flag is unchanged — the main
loop resets `heartbeat_warned` after *any* processed line. -/
theorem unknown_line_clears_warned :
    c4TestState.warned = true ∧
    (loopStep 100 (some '\n') c4TestState).1.warned = false := by decide

/-- C4 as amended: an unknown command leaves `process_command`'s state
untouched and emits only diagnostics; at loop level, completing an
unknown line (here with the watchdog not due) keeps `last_heartbeat`
and both track outputs unchanged and emits only diagnostics, but resets
the `warned` flag — the loop clears `heartbeat_warned` after any
completed line, unknown commands included. -/
theorem unknown_command_effects :
    (∀ (cmd : List Char) (now : Int) (st : CtrlState),
       cmd ≠ heartbeatCmd → isMoveCmd cmd = false →
       process_command cmd now st = (st, [Event.cmdEcho cmd, Event.unknownCmd cmd])) ∧
    (∀ (s : LoopState) (t : Int) (ch : Char),
       (ch = '\n' ∨ ch = '\r') → s.buf ≠ [] → s.buf ≠ heartbeatCmd →
       isMoveCmd s.buf = false → t - s.ctrl.last_heartbeat ≤ HEARTBEAT_TIMEOUT_US →
       loopStep t (some ch) s =
         ({ ctrl := s.ctrl, warned := false, buf := [] },
          [Event.cmdEcho s.buf, Event.unknownCmd s.buf])) := by
  refine ⟨fun cmd now st h1 h2 => pc_unknown now st h1 h2,
          fun s t ch hterm hne hhb hm hto => ?_⟩
  have hstep := loopInput_emit t (feed_term_emit hterm hne)
  rw [pc_unknown t s.ctrl hhb hm] at hstep
  rw [loopStep, hstep]
  have htn : tripsNow t ({ ctrl := s.ctrl, warned := false, buf := [] } : LoopState)
      = false := by
    unfold tripsNow
    simp only [Bool.not_false, Bool.and_true]
    exact decide_eq_false (by omega)
  rw [wd_noFire htn]
  simp

/-- Witness for `unknown_command_effects` on the unknown lines `"ping"`
and `"foo"`. -/
theorem unknown_command_effects_applied :
    process_command ['p', 'i', 'n', 'g'] 3 (initState 0).ctrl
      = ((initState 0).ctrl,
         [Event.cmdEcho ['p', 'i', 'n', 'g'], Event.unknownCmd ['p', 'i', 'n', 'g']]) ∧
    loopStep 100 (some '\n') c4TestState =
      ({ ctrl := c4TestState.ctrl, warned := false, buf := [] },
       [Event.cmdEcho ['f', 'o', 'o'], Event.unknownCmd ['f', 'o', 'o']]) :=
  ⟨unknown_command_effects.1 ['p', 'i', 'n', 'g'] 3 (initState 0).ctrl
     (by decide) (by decide),
   unknown_command_effects.2 c4TestState 100 '\n' (Or.inl rfl)
     (by decide) (by decide) (by decide) (by decide)⟩

theorem runFeed_quiet {buf b1 : List Char} {c : Char} (cs : List Char)
    (h : feed buf c = (b1, FeedOut.quiet)) :
    runFeed buf (c :: cs) = runFeed b1 cs := by
  simp [runFeed, h]

theorem runFeed_emit_step {buf b1 l : List Char} {c : Char} (cs : List Char)
    (h : feed buf c = (b1, FeedOut.emit l)) :
    runFeed buf (c :: cs) =
      ((runFeed b1 cs).1, l :: (runFeed b1 cs).2.1, (runFeed b1 cs).2.2) := by
  simp [runFeed, h]

theorem runFeed_ovf {buf b1 : List Char} {c : Char} (cs : List Char)
    (h : feed buf c = (b1, FeedOut.overflow)) :
    runFeed buf (c :: cs) =
      ((runFeed b1 cs).1, (runFeed b1 cs).2.1, (runFeed b1 cs).2.2 + 1) := by
  simp [runFeed, h]

theorem runFeed_wf {input : List Char} (buf : List Char)
    (hlen : buf.length ≤ LINE_MAX)
    (hterm : ∀ c ∈ buf, c ≠ '\n' ∧ c ≠ '\r') :
    ∀ l ∈ (runFeed buf input).2.1,
      l ≠ [] ∧ l.length ≤ LINE_MAX ∧ ∀ c ∈ l, c ≠ '\n' ∧ c ≠ '\r' := by
  induction input generalizing buf with
  | nil =>
    intro l hl
    simp [runFeed] at hl
  | cons c cs ih =>
    intro l hl
    by_cases hc : c = '\n' ∨ c = '\r'
    · by_cases hbuf : buf = []
      · rw [runFeed_quiet cs (feed_term_empty hc hbuf)] at hl
        exact ih buf hlen hterm l hl
      · rw [runFeed_emit_step cs (feed_term_emit hc hbuf)] at hl
        simp only [List.mem_cons] at hl
        rcases hl with rfl | hl
        · exact ⟨hbuf, hlen, hterm⟩
        · exact ih [] (by simp [LINE_MAX, BUF_SIZE]) (by simp) l hl
    · by_cases hfull : buf.length < LINE_MAX
      · rw [runFeed_quiet cs (feed_data hc hfull)] at hl
        refine ih (buf ++ [c]) (by simp; omega) ?_ l hl
        intro x hx
        rcases List.mem_append.mp hx with hx | hx
        · exact hterm x hx
        · simp only [List.mem_singleton] at hx
          subst hx
          exact ⟨fun h => hc (Or.inl h), fun h => hc (Or.inr h)⟩
      · rw [runFeed_ovf cs (feed_full hc hfull)] at hl
        exact ih [] (by simp [LINE_MAX, BUF_SIZE]) (by simp) l hl

/-- C8: every line the assembler hands to the interpreter — over every
possible input byte sequence, starting from the empty buffer — is
non-empty, at most `LINE_MAX = 63` bytes long, and contains no
terminator byte (`'\n'` or `'\r'`). -/
theorem emitted_lines_wellformed (input : List Char) :
    ∀ l ∈ (runFeed [] input).2.1,
      l ≠ [] ∧ l.length ≤ LINE_MAX ∧ ∀ c ∈ l, c ≠ '\n' ∧ c ≠ '\r' :=
  runFeed_wf [] (by simp [LINE_MAX, BUF_SIZE]) (by simp)

/-- Witness for `emitted_lines_wellformed` on the stream `"hi\n"`. -/
theorem emitted_lines_wellformed_applied :
    (['h', 'i'] : List Char) ≠ [] ∧ (['h', 'i'] : List Char).length ≤ LINE_MAX ∧
    ∀ c ∈ (['h', 'i'] : List Char), c ≠ '\n' ∧ c ≠ '\r' :=
  emitted_lines_wellformed ['h', 'i', '\n'] ['h', 'i'] (by decide)

theorem runFeed_append (buf : List Char) (xs ys : List Char) :
    runFeed buf (xs ++ ys) =
      ((runFeed (runFeed buf xs).1 ys).1,
       (runFeed buf xs).2.1 ++ (runFeed (runFeed buf xs).1 ys).2.1,
       (runFeed buf xs).2.2 + (runFeed (runFeed buf xs).1 ys).2.2) := by
  induction xs generalizing buf with
  | nil => simp [runFeed]
  | cons c cs ih =>
    rcases hf : feed buf c with ⟨b1, fo⟩
    cases fo with
    | quiet =>
      rw [List.cons_append, runFeed_quiet (cs ++ ys) hf, runFeed_quiet cs hf, ih]
    | emit l =>
      rw [List.cons_append, runFeed_emit_step (cs ++ ys) hf, runFeed_emit_step cs hf, ih]
      simp
    | overflow =>
      rw [List.cons_append, runFeed_ovf (cs ++ ys) hf, runFeed_ovf cs hf, ih]
      simp only [Prod.mk.injEq]
      refine ⟨?_, ?_, ?_⟩ <;> first | trivial | omega

theorem runFeed_fill {bs : List Char} (buf : List Char)
    (hterm : ∀ c ∈ bs, ¬(c = '\n' ∨ c = '\r'))
    (hlen : buf.length + bs.length ≤ LINE_MAX) :
    runFeed buf bs = (buf ++ bs, [], 0) := by
  induction bs generalizing buf with
  | nil => simp [runFeed]
  | cons c cs ih =>
    have hc := hterm c (by simp)
    have hl : buf.length < LINE_MAX := by
      simp only [List.length_cons] at hlen
      omega
    have hterm2 : ∀ x ∈ cs, ¬(x = '\n' ∨ x = '\r') :=
      fun x hx => hterm x (by simp [hx])
    have hlen2 : (buf ++ [c]).length + cs.length ≤ LINE_MAX := by
      simp only [List.length_append, List.length_cons, List.length_nil] at hlen ⊢
      omega
    rw [runFeed_quiet cs (feed_data hc hl), ih (buf ++ [c]) hterm2 hlen2]
    simp

theorem runFeed_overflow_tail (bs : List Char)
    (hlen : bs.length = LINE_MAX + 5)
    (hterm : ∀ c ∈ bs, ¬(c = '\n' ∨ c = '\r')) :
    runFeed [] (bs ++ ['\n']) = ([], [bs.drop (LINE_MAX + 1)], 1) := by
  have h63 : LINE_MAX < bs.length := by
    rw [hlen]
    omega
  have hsplit : bs.drop LINE_MAX = bs[LINE_MAX] :: bs.drop (LINE_MAX + 1) :=
    List.drop_eq_getElem_cons h63
  have htake : (bs.take LINE_MAX).length = LINE_MAX := by
    rw [List.length_take]
    exact Nat.min_eq_left (by omega)
  have hbs0 : bs.take LINE_MAX ++ (bs[LINE_MAX] :: bs.drop (LINE_MAX + 1)) = bs := by
    rw [← hsplit]
    exact List.take_append_drop _ _
  have hbs : bs ++ ['\n'] =
      bs.take LINE_MAX ++ (bs[LINE_MAX] :: (bs.drop (LINE_MAX + 1) ++ ['\n'])) := by
    conv_lhs => rw [← hbs0]
    rw [List.append_assoc, List.cons_append]
  rw [hbs, runFeed_append]
  have hfill1 : runFeed [] (bs.take LINE_MAX) = (bs.take LINE_MAX, [], 0) :=
    runFeed_fill [] (fun c hc => hterm c (List.take_subset _ _ hc)) (by simp [htake])
  rw [hfill1]
  have hful : feed (bs.take LINE_MAX) bs[LINE_MAX] = ([], FeedOut.overflow) :=
    feed_full (hterm _ (List.getElem_mem h63)) (by rw [htake]; omega)
  rw [runFeed_ovf _ hful, runFeed_append]
  have hfill2 : runFeed [] (bs.drop (LINE_MAX + 1)) = (bs.drop (LINE_MAX + 1), [], 0) :=
    runFeed_fill [] (fun c hc => hterm c (List.drop_subset _ _ hc))
      (by simp [List.length_drop, hlen, LINE_MAX, BUF_SIZE])
  rw [hfill2]
  have hdne : bs.drop (LINE_MAX + 1) ≠ [] := by
    have h4 : (bs.drop (LINE_MAX + 1)).length = 4 := by
      rw [List.length_drop, hlen]
      omega
    intro h0
    rw [h0] at h4
    simp at h4
  rw [runFeed_emit_step _ (feed_term_emit (Or.inl rfl) hdne)]
  simp [runFeed]

theorem replicate_nonterm (n : Nat) {ch : Char} (h : ¬(ch = '\n' ∨ ch = '\r')) :
    ∀ c ∈ List.replicate n ch, ¬(c = '\n' ∨ c = '\r') := by
  intro c hc
  rw [List.eq_of_mem_replicate hc]
  exact h

/-- C5 counterexample: feeding `LINE_MAX + 5 = 68` non-terminator bytes
then a terminator makes the assembler emit one completed line — the four
bytes fed after the overflow reset — so the claim's "emits no completed
line" is false. -/
theorem overflow_scenario_emits_line :
    (runFeed [] (List.replicate (LINE_MAX + 5) 'a' ++ ['\n'])).2.1
      = [List.replicate 4 'a'] ∧
    [List.replicate 4 'a'] ≠ ([] : List (List Char)) := by
  have h := runFeed_overflow_tail (List.replicate (LINE_MAX + 5) 'a')
    (List.length_replicate _ _) (replicate_nonterm _ (by decide))
  rw [h, List.drop_replicate]
  have h4 : LINE_MAX + 5 - (LINE_MAX + 1) = 4 := by omega
  rw [h4]
  exact ⟨rfl, by simp⟩

/-- C5 as amended: feeding `LINE_MAX + 5` non-terminator bytes then a
terminator produces exactly one overflow/discard event (at byte 64,
which discards the 63 buffered bytes) and leaves the assembler with an
empty buffer — but the 4 bytes fed after the reset accumulate, and the
terminator emits them as one completed line (`bs.drop (LINE_MAX + 1)`),
rather than emitting nothing. -/
theorem overflow_recovery_emits_tail (bs : List Char)
    (hlen : bs.length = LINE_MAX + 5)
    (hterm : ∀ c ∈ bs, ¬(c = '\n' ∨ c = '\r')) :
    runFeed [] (bs ++ ['\n']) = ([], [bs.drop (LINE_MAX + 1)], 1) :=
  runFeed_overflow_tail bs hlen hterm

/-- Witness for `overflow_recovery_emits_tail` on 68 copies of `'b'`. -/
theorem overflow_recovery_emits_tail_applied :
    runFeed [] (List.replicate (LINE_MAX + 5) 'b' ++ ['\n'])
      = ([], [(List.replicate (LINE_MAX + 5) 'b').drop (LINE_MAX + 1)], 1) :=
  overflow_recovery_emits_tail (List.replicate (LINE_MAX + 5) 'b')
    (List.length_replicate _ _) (replicate_nonterm _ (by decide))

theorem noTripRun_append (s : LoopState) (xs ys : List (Int × Option Char)) :
    noTripRun s (xs ++ ys) =
      (noTripRun s xs && noTripRun (runLoop s xs).1 ys) := by
  induction xs generalizing s with
  | nil => simp [noTripRun, runLoop]
  | cons p xs ih =>
    obtain ⟨t, i⟩ := p
    rw [List.cons_append, noTripRun, noTripRun, ih]
    rw [runLoop]
    simp [Bool.and_assoc]

theorem run_chars_ctrl {cs : List Char} (ts : List Int) (s : LoopState)
    (hterm : ∀ c ∈ cs, ¬(c = '\n' ∨ c = '\r'))
    (hlen : s.buf.length + cs.length ≤ LINE_MAX)
    (hts : ts.length = cs.length)
    (htrip : noTripRun s (ts.zip (cs.map some)) = true) :
    (runLoop s (ts.zip (cs.map some))).1 = { s with buf := s.buf ++ cs } := by
  induction cs generalizing ts s with
  | nil =>
    rw [List.length_eq_zero.mp hts]
    simp [runLoop]
  | cons c cs ih =>
    obtain ⟨t, ts, rfl⟩ : ∃ a l, ts = a :: l := by
      cases ts with
      | nil => simp at hts
      | cons a l => exact ⟨a, l, rfl⟩
    rw [List.map_cons, List.zip_cons_cons] at htrip ⊢
    rw [noTripRun, Bool.and_eq_true, Bool.not_eq_true'] at htrip
    obtain ⟨htrip1, htrip⟩ := htrip
    have hc := hterm c (by simp)
    have hl : s.buf.length < LINE_MAX := by
      simp only [List.length_cons] at hlen
      omega
    have hinput : loopInput t (some c) s = ({ s with buf := s.buf ++ [c] }, []) :=
      loopInput_quiet t (feed_data hc hl)
    have htn : tripsNow t ({ s with buf := s.buf ++ [c] } : LoopState) = false := by
      rw [hinput] at htrip1
      exact htrip1
    have hstep : loopStep t (some c) s = ({ s with buf := s.buf ++ [c] }, []) := by
      rw [loopStep, hinput, wd_noFire htn]
      rfl
    rw [hstep] at htrip
    rw [runLoop, hstep]
    have hterm2 : ∀ x ∈ cs, ¬(x = '\n' ∨ x = '\r') :=
      fun x hx => hterm x (by simp [hx])
    have hlen2 : ({ s with buf := s.buf ++ [c] } : LoopState).buf.length + cs.length
        ≤ LINE_MAX := by
      simp only [List.length_append, List.length_cons, List.length_nil] at hlen ⊢
      omega
    have hts2 : ts.length = cs.length := by
      simp only [List.length_cons] at hts
      omega
    have := ih ts ({ s with buf := s.buf ++ [c] }) hterm2 hlen2 hts2 htrip
    rw [this]
    simp

theorem hb_line_step (t : Int) (s : LoopState) (hbuf : s.buf = heartbeatCmd) :
    loopStep t (some '\n') s =
      ({ ctrl := { s.ctrl with last_heartbeat := t }, warned := false, buf := [] },
       [Event.cmdEcho heartbeatCmd]) := by
  have hne : s.buf ≠ [] := by
    rw [hbuf]
    simp [heartbeatCmd]
  have hinput : loopInput t (some '\n') s =
      ({ ctrl := { s.ctrl with last_heartbeat := t }, warned := false, buf := [] },
       [Event.cmdEcho heartbeatCmd]) := by
    rw [loopInput_emit t (feed_term_emit (Or.inl rfl) hne), hbuf, pc_heartbeat]
  have htn : tripsNow t
      ({ ctrl := { s.ctrl with last_heartbeat := t }, warned := false, buf := [] } :
        LoopState) = false := by
    unfold tripsNow HEARTBEAT_TIMEOUT_US
    simp only [Bool.not_false, Bool.and_true]
    exact decide_eq_false (by simp)
  rw [loopStep, hinput, wd_noFire htn]
  rfl

theorem run_hb_line (ts : List Int) (s : LoopState)
    (hbuf : s.buf = []) (hts : ts.length = 10)
    (htrip : noTripRun s (ts.zip (lineBytes heartbeatCmd)) = true) :
    (runLoop s (ts.zip (lineBytes heartbeatCmd))).1.ctrl.left = s.ctrl.left ∧
    (runLoop s (ts.zip (lineBytes heartbeatCmd))).1.ctrl.right = s.ctrl.right ∧
    (runLoop s (ts.zip (lineBytes heartbeatCmd))).1.buf = [] := by
  have hts9 : (ts.take 9).length = (heartbeatCmd.map some).length := by
    rw [List.length_take, hts]
    decide
  have h1 : lineBytes heartbeatCmd = heartbeatCmd.map some ++ [some '\n'] := rfl
  have hzip : ts.zip (lineBytes heartbeatCmd) =
      (ts.take 9).zip (heartbeatCmd.map some) ++ (ts.drop 9).zip [some '\n'] := by
    conv_lhs => rw [← List.take_append_drop 9 ts, h1]
    exact List.zip_append hts9
  rw [hzip, noTripRun_append, Bool.and_eq_true] at htrip
  obtain ⟨ht1, ht2⟩ := htrip
  rw [hzip, runLoop_append]
  have h9 := run_chars_ctrl (ts.take 9) s (by decide)
    (by rw [hbuf]; decide) (by rw [List.length_take, hts]; rfl) ht1
  rw [hbuf, List.nil_append] at h9
  obtain ⟨t10, hd⟩ : ∃ a, ts.drop 9 = [a] := by
    apply List.length_eq_one.mp
    rw [List.length_drop, hts]
  rw [h9, hd] at ht2 ⊢
  have hstep := hb_line_step t10 ({ s with buf := heartbeatCmd }) rfl
  have hzip1 : ([t10].zip [some '\n']) = [(t10, some '\n')] := rfl
  rw [hzip1, runLoop, hstep]
  simp [runLoop]

theorem run_hb_stream (n : Nat) (ts : List Int) (s : LoopState)
    (hbuf : s.buf = []) (hts : ts.length = 10 * n)
    (htrip : noTripRun s (ts.zip (hbStream n)) = true) :
    (runLoop s (ts.zip (hbStream n))).1.ctrl.left = s.ctrl.left ∧
    (runLoop s (ts.zip (hbStream n))).1.ctrl.right = s.ctrl.right := by
  induction n generalizing ts s with
  | zero =>
    have h0 : hbStream 0 = [] := rfl
    rw [h0, List.zip_nil_right]
    exact ⟨rfl, rfl⟩
  | succ n ih =>
    have hstream : hbStream (n + 1) = lineBytes heartbeatCmd ++ hbStream n := by
      rw [hbStream, List.replicate_succ, List.flatten_cons]
      rfl
    have hts10 : (ts.take 10).length = (lineBytes heartbeatCmd).length := by
      show (ts.take 10).length = 10
      rw [List.length_take, hts]
      exact Nat.min_eq_left (by omega)
    have hzip : ts.zip (hbStream (n + 1)) =
        (ts.take 10).zip (lineBytes heartbeatCmd) ++ (ts.drop 10).zip (hbStream n) := by
      conv_lhs => rw [← List.take_append_drop 10 ts, hstream]
      exact List.zip_append hts10
    rw [hzip, noTripRun_append, Bool.and_eq_true] at htrip
    obtain ⟨ht1, ht2⟩ := htrip
    rw [hzip, runLoop_append]
    obtain ⟨hL, hR, hB⟩ := run_hb_line (ts.take 10) s hbuf
      (by rw [List.length_take, hts]; exact Nat.min_eq_left (by omega)) ht1
    have hts2 : (ts.drop 10).length = 10 * n := by
      rw [List.length_drop, hts]
      omega
    obtain ⟨ihL, ihR⟩ := ih (ts.drop 10)
      ((runLoop s ((ts.take 10).zip (lineBytes heartbeatCmd))).1) hB hts2 ht2
    exact ⟨by rw [ihL, hL], by rw [ihR, hR]⟩

/-- C6: the heartbeat branch of `process_command` mutates only
`last_heartbeat` (the loop also clears `warned`, no actuator change);
and feeding any number `n` of consecutive `"heartbeat"` lines — ten bytes
per line at arbitrary iteration times — with no watchdog trip occurring
in between leaves both tracks' duty and direction exactly unchanged. -/
theorem heartbeat_lines_preserve_targets :
    (∀ (now : Int) (st : CtrlState),
       process_command heartbeatCmd now st =
         ({ st with last_heartbeat := now }, [Event.cmdEcho heartbeatCmd])) ∧
    (∀ (n : Nat) (ts : List Int) (s : LoopState),
       s.buf = [] → ts.length = 10 * n →
       noTripRun s (ts.zip (hbStream n)) = true →
       (runLoop s (ts.zip (hbStream n))).1.ctrl.left = s.ctrl.left ∧
       (runLoop s (ts.zip (hbStream n))).1.ctrl.right = s.ctrl.right) :=
  ⟨pc_heartbeat, run_hb_stream⟩

/-- Witness for `heartbeat_lines_preserve_targets`: one `"heartbeat"`
line fed from the boot state changes neither track. -/
theorem heartbeat_lines_preserve_targets_applied :
    process_command heartbeatCmd 5 (initState 0).ctrl =
      ({ (initState 0).ctrl with last_heartbeat := 5 },
       [Event.cmdEcho heartbeatCmd]) ∧
    (runLoop (initState 0) ((List.replicate 10 (0 : Int)).zip (hbStream 1))).1.ctrl.left
      = (initState 0).ctrl.left ∧
    (runLoop (initState 0) ((List.replicate 10 (0 : Int)).zip (hbStream 1))).1.ctrl.right
      = (initState 0).ctrl.right := by
  obtain ⟨hL, hR⟩ := heartbeat_lines_preserve_targets.2 1 (List.replicate 10 0)
    (initState 0) rfl (by rw [List.length_replicate]) (by decide)
  exact ⟨heartbeat_lines_preserve_targets.1 5 (initState 0).ctrl, hL, hR⟩
